import Mathlib

set_option linter.unusedVariables false
set_option linter.dupNamespace false

/-!
Shallow embedding of the IP/port resolution engine of the mesos-dns
record state package (`records/state/state.go`) and its peer-identifier
parser (`records/state/upid/upid.go`), together with models of the Go
standard-library routines they call (`strings.Split`, `strings.TrimSpace`,
`strconv.Atoi`, `strconv.Itoa`, `net.ParseIP`, `net.IP.String`,
`net.SplitHostPort`, and the deterministic fragment of
`net.ResolveTCPAddr`).

Go byte strings are modelled as `List Char`; Go `float64` timestamps are
modelled as `ℚ` (only order comparisons on finite literals occur in the
code); Go `int` is modelled as `Int`; a Go run-time panic (out-of-range
slice index) is modelled by an `Option`-valued result being `none`.
-/

namespace MesosDNS

/-- Go byte strings (`string`) are modelled as lists of characters. -/
abbrev Chars := List Char

/-- `'0' <= c && c <= '9'`, the digit test used by Go's integer parsers. -/
def isDigitCh (c : Char) : Bool := 48 ≤ c.toNat && c.toNat ≤ 57

/-- Numeric value of a decimal digit character (`c - '0'`). -/
def digitVal (c : Char) : Nat := c.toNat - 48

/-- Decimal digit character for `n < 10` (`'0' + n`). -/
def digitCh (n : Nat) : Char := Char.ofNat (48 + n)

/-- Go `strings.Split(s, sep)` for a one-character separator `sep`:
splits `s` at every occurrence of `sep`; the result always has one more
element than the number of occurrences. -/
def splitCh (sep : Char) : Chars → List Chars
  | [] => [[]]
  | c :: rest =>
    if c = sep then [] :: splitCh sep rest
    else
      match splitCh sep rest with
      | [] => [[c]]
      | f :: fs => (c :: f) :: fs

/-- Fuel-driven worker of `natChars`; `n < fuel` always holds at the
call sites, so the fuel never runs out. -/
def natCharsAux : Nat → Nat → Chars
  | 0, _ => []
  | fuel + 1, n =>
    if n < 10 then [digitCh n]
    else natCharsAux fuel (n / 10) ++ [digitCh (n % 10)]

/-- Decimal digit string of a natural number (the core of Go
`strconv.Itoa` for non-negative values). -/
def natChars (n : Nat) : Chars := natCharsAux (n + 1) n

/-- Helper of `parseDigits`: succeeds only if every character is a
decimal digit. -/
def parseDigitsAux : Chars → Nat → Option Nat
  | [], acc => some acc
  | c :: rest, acc =>
    if isDigitCh c then parseDigitsAux rest (10 * acc + digitVal c) else none

/-- Digits-only parser used by the `strconv.Atoi` model: `none` on an
empty string or any non-digit character. -/
def parseDigits : Chars → Option Nat
  | [] => none
  | c :: rest => parseDigitsAux (c :: rest) 0

/-- Index of the last occurrence of `c` in `l`, Go `last(s, b)`. -/
def lastIndexOfCh (c : Char) : Chars → Option Nat
  | [] => none
  | x :: rest =>
    match lastIndexOfCh c rest with
    | some i => some (i + 1)
    | none => if x = c then some 0 else none

/-- Index of the first occurrence of `c` in `l`, Go `byteIndex(s, b)`. -/
def indexOfCh (c : Char) : Chars → Option Nat
  | [] => none
  | x :: rest =>
    if x = c then some 0
    else (indexOfCh c rest).map (· + 1)

/-!
## Model of Go `net.ParseIP` and `net.IP.String`

A `net.IP` is a byte slice, modelled as `List Nat` (each entry `< 256`).
`parseIPv4` and `parseIPv6` are translated from the Go standard library
(`net/ip.go`, `net/parse.go` of the Go releases contemporary with this
repository); both produce 16-byte addresses, IPv4 ones in the
IPv4-in-IPv6 `::ffff:a.b.c.d` byte form produced by Go's `IPv4`
constructor. -/

/-- The 12-byte `::ffff:` head that Go's `IPv4(a,b,c,d)` puts in front
of the four IPv4 bytes (`v4InV6Pfx`). -/
def v4InV6Pfx : List Nat := [0, 0, 0, 0, 0, 0, 0, 0, 0, 0, 255, 255]

/-- Worker of `dtoi`: Go's decimal parser over a prefix of the string.
Returns `(n, i, ok)`: value, characters consumed, and success. Scanning
stops at the first non-digit; zero digits or a value reaching
`big = 0xFFFFFF` is a failure. -/
def dtoiAux : Chars → Nat → Nat → Nat × Nat × Bool
  | [], n, i => if i = 0 then (0, 0, false) else (n, i, true)
  | c :: rest, n, i =>
    if isDigitCh c then
      let m := n * 10 + digitVal c
      if 0xFFFFFF ≤ m then (0xFFFFFF, i, false)
      else dtoiAux rest m (i + 1)
    else if i = 0 then (0, 0, false) else (n, i, true)

/-- Go `net.dtoi`. -/
def dtoi (s : Chars) : Nat × Nat × Bool := dtoiAux s 0 0

/-- Worker of `xtoi`: Go's hexadecimal parser over a prefix of the
string; on overflow (`n >= big`) Go returns `(0, i, false)`. -/
def xtoiAux : Chars → Nat → Nat → Nat × Nat × Bool
  | [], n, i => if i = 0 then (0, i, false) else (n, i, true)
  | c :: rest, n, i =>
    let d? : Option Nat :=
      if isDigitCh c then some (digitVal c)
      else if 97 ≤ c.toNat && c.toNat ≤ 102 then some (c.toNat - 97 + 10)
      else if 65 ≤ c.toNat && c.toNat ≤ 70 then some (c.toNat - 65 + 10)
      else none
    match d? with
    | none => if i = 0 then (0, i, false) else (n, i, true)
    | some d =>
      let m := n * 16 + d
      if 0xFFFFFF ≤ m then (0, i, false)
      else xtoiAux rest m (i + 1)

/-- Go `net.xtoi`. -/
def xtoi (s : Chars) : Nat × Nat × Bool := xtoiAux s 0 0

/-- Field loop of Go `net.parseIPv4`, counting down the fields still to
parse (Go's `i` is `acc.length`): four decimal fields `<= 0xFF`
separated by `'.'`, the whole string consumed; yields the 16-byte
`::ffff:a.b.c.d` form made by Go's `IPv4` constructor. -/
def parseIPv4Loop : Nat → Chars → List Nat → Option (List Nat)
  | 0, s, acc => if s = [] then some (v4InV6Pfx ++ acc) else none
  | left + 1, s, acc =>
    match s with
    | [] => none
    | _ :: _ =>
      let s? : Option Chars :=
        if acc.isEmpty then some s
        else
          match s with
          | '.' :: r => some r
          | _ => none
      match s? with
      | none => none
      | some s1 =>
        let (n, c, ok) := dtoi s1
        if ok = false ∨ 0xFF < n then none
        else parseIPv4Loop left (s1.drop c) (acc ++ [n])

/-- Go `net.parseIPv4`. -/
def parseIPv4 (s : Chars) : Option (List Nat) := parseIPv4Loop 4 s []

/-- Expansion of a `::` ellipsis at group position `ell` (Go's tail of
`parseIPv6`): inserts the missing zero bytes, or rejects when the
ellipsis is absent but needed, or present but redundant. -/
def ipv6Finish (acc : List Nat) (ell : Option Nat) : Option (List Nat) :=
  if acc.length < 16 then
    match ell with
    | none => none
    | some e => some (acc.take e ++ List.replicate (16 - acc.length) 0 ++ acc.drop e)
  else
    match ell with
    | some _ => none
    | none => some acc

/-- Main loop of Go `net.parseIPv6` (zone-less form, as called from
`ParseIP`): hex groups separated by `':'`, at most one `::`, optional
trailing embedded IPv4. `acc` holds the bytes produced so far (Go's `i`
is `acc.length`), `ell` the byte position of the `::` if seen. The
first argument is fuel; every recursive call consumes at least one
character of `s`, so `s.length + 1` suffices. -/
def parseIPv6Loop : Nat → Chars → List Nat → Option Nat → Option (List Nat)
  | 0, _, _, _ => none
  | fuel + 1, s, acc, ell =>
    if acc.length < 16 then
      let (n, c, ok) := xtoi s
      if ok = false ∨ 0xFFFF < n then none
      else if (s.drop c).head? = some '.' then
        if (ell = none ∧ acc.length ≠ 12) ∨ 16 < acc.length + 4 then none
        else
          match parseIPv4 s with
          | none => none
          | some ip4 => ipv6Finish (acc ++ ip4.drop 12) ell
      else
        let acc1 := acc ++ [n / 256, n % 256]
        match s.drop c with
        | [] => ipv6Finish acc1 ell
        | ':' :: s2 =>
          match s2 with
          | [] => none
          | ':' :: s3 =>
            if ell.isSome then none
            else
              match s3 with
              | [] => ipv6Finish acc1 (some acc1.length)
              | _ :: _ => parseIPv6Loop fuel s3 acc1 (some acc1.length)
          | _ :: _ => parseIPv6Loop fuel s2 acc1 ell
        | _ :: _ => none
    else if s = [] then ipv6Finish acc ell else none

/-- Go `net.parseIPv6` without zone (as called by `ParseIP`). -/
def parseIPv6 (s : Chars) : Option (List Nat) :=
  if s.take 2 = [':', ':'] then
    match s.drop 2 with
    | [] => some (List.replicate 16 0)
    | s1 => parseIPv6Loop (s1.length + 1) s1 [] (some 0)
  else parseIPv6Loop (s.length + 1) s [] none

/-- Go `net.splitHostZone`: an IPv6 scoped-addressing zone identifier
starts after the last percent sign, which must not be the first
character. -/
def splitHostZone (s : Chars) : Chars × Chars :=
  match lastIndexOfCh '%' s with
  | some i => if 0 < i then (s.take i, s.drop (i + 1)) else (s, [])
  | none => (s, [])

/-- Go `net.parseIPv6` with `zoneAllowed = true`, as the address
resolver uses it on literal hosts: split off the zone, then parse the
remaining text as an IPv6 literal. -/
def parseIPv6Zone (s : Chars) : Option (List Nat × Chars) :=
  match splitHostZone s with
  | (host, zone) => (parseIPv6 host).map (fun ip => (ip, zone))

/-- The dispatch scan of Go `net.ParseIP`: find whether a `'.'` or a
`':'` comes first. `some true` means a dot came first. -/
def parseIPScan : Chars → Option Bool
  | [] => none
  | c :: rest =>
    if c = '.' then some true
    else if c = ':' then some false
    else parseIPScan rest

/-- Go `net.ParseIP`: `none` models the `nil` result. -/
def parseIP (s : Chars) : Option (List Nat) :=
  match parseIPScan s with
  | some true => parseIPv4 s
  | some false => parseIPv6 s
  | none => none

/-- Go `net.IP.To4`: the 4-byte form of an IPv4 or IPv4-in-IPv6
address, `none` for anything else. -/
def ipTo4 (ip : List Nat) : Option (List Nat) :=
  if ip.length = 4 then some ip
  else
    if ip.length = 16 ∧ ip.take 12 = v4InV6Pfx then some (ip.drop 12)
    else none

/-- Fuel-driven worker of `hexChars`. -/
def hexCharsAux : Nat → Nat → Chars
  | 0, _ => []
  | fuel + 1, n =>
    if n < 16 then
      [if n < 10 then digitCh n else Char.ofNat (97 + (n - 10))]
    else
      hexCharsAux fuel (n / 16)
        ++ [if n % 16 < 10 then digitCh (n % 16) else Char.ofNat (97 + (n % 16 - 10))]

/-- Minimal lower-case hexadecimal digits of `n` (Go `appendHex`). -/
def hexChars (n : Nat) : Chars := hexCharsAux (n + 1) n

/-- Two-digit lower-case hex of one byte (Go `net.hexString` helper). -/
def byteHex (b : Nat) : Chars :=
  [if b / 16 < 10 then digitCh (b / 16) else Char.ofNat (97 + (b / 16 - 10)),
   if b % 16 < 10 then digitCh (b % 16) else Char.ofNat (97 + (b % 16 - 10))]

/-- 16-bit group `k` (`0 ≤ k < 8`) of a 16-byte address. -/
def ipGroup (ip : List Nat) (k : Nat) : Nat :=
  256 * (ip.getD (2 * k) 0) + ip.getD (2 * k + 1) 0

/-- Fuel-driven worker of `zeroRunFrom` (`8 - k` fuel suffices). -/
def zeroRunFromAux (ip : List Nat) : Nat → Nat → Nat
  | 0, _ => 0
  | left + 1, k =>
    if ipGroup ip k = 0 then 1 + zeroRunFromAux ip left (k + 1) else 0

/-- Number of consecutive zero groups starting at group `k` (among the
eight groups). -/
def zeroRunFrom (ip : List Nat) (k : Nat) : Nat := zeroRunFromAux ip (8 - k) k

/-- Fuel-driven worker of `zeroRunScan`: `k` grows by at least one per
step, so fuel `9` suffices from `k = 0`. -/
def zeroRunScanAux (ip : List Nat) : Nat → Nat → Option (Nat × Nat) → Option (Nat × Nat)
  | 0, _, best => best
  | fuel + 1, k, best =>
    if k < 8 then
      let r := zeroRunFrom ip k
      let bestLen := match best with | none => 0 | some p => p.2
      if 0 < r ∧ bestLen < r then zeroRunScanAux ip fuel (k + r) (some (k, r))
      else zeroRunScanAux ip fuel (k + 1) best
    else best

/-- The earliest longest run of zero groups (start, length), scanning
exactly like the `e0`/`e1` loop of Go `net.IP.String`: a later run
replaces the current best only if strictly longer. -/
def zeroRunScan (ip : List Nat) : Option (Nat × Nat) :=
  zeroRunScanAux ip 9 0 none

/-- Output loop of the IPv6 branch of Go `net.IP.String`; `e` is the
compressed run in group coordinates, `fuel ≥ 9` suffices. -/
def v6BuildAux (ip : List Nat) (e : Option (Nat × Nat)) : Nat → Nat → Chars
  | 0, _ => []
  | fuel + 1, k =>
    if k < 8 then
      match e with
      | some (a, r) =>
        if k = a then
          ':' :: ':' ::
            (if 8 ≤ a + r then []
             else hexChars (ipGroup ip (a + r)) ++ v6BuildAux ip e fuel (a + r + 1))
        else
          (if 0 < k then [':'] else []) ++ hexChars (ipGroup ip k) ++ v6BuildAux ip e fuel (k + 1)
      | none =>
        (if 0 < k then [':'] else []) ++ hexChars (ipGroup ip k) ++ v6BuildAux ip e fuel (k + 1)
    else []

/-- Go `net.IP.String`, translated from `net/ip.go`: empty → `"<nil>"`;
4-byte form available → dotted quad; 16 bytes → RFC 5952 text with `::`
compressing the earliest longest run of two or more zero groups; other
lengths → `"?"` followed by the hex dump. -/
def ipString (ip : List Nat) : Chars :=
  if ip = [] then "<nil>".data
  else
    match ipTo4 ip with
    | some [a, b, c, d] =>
      natChars a ++ '.' :: natChars b ++ '.' :: natChars c ++ '.' :: natChars d
    | _ =>
      if ip.length ≠ 16 then '?' :: (ip.map byteHex).flatten
      else
        let run0 := zeroRunScan ip
        let run := match run0 with
          | some (a, r) => if r ≤ 1 then none else some (a, r)
          | none => none
        v6BuildAux ip run 9 0

/-!
## Model of `net.SplitHostPort` / `net.ResolveTCPAddr` and `upid.Parse`

`upid.Parse` (in `records/state/upid/upid.go`) splits its input on `@`,
calls `net.ResolveTCPAddr("tcp", rhs)` to validate the right-hand side,
and extracts host and port with `net.SplitHostPort`. `SplitHostPort`
is translated from `net/ipsock.go`. `ResolveTCPAddr` is modelled in
its deterministic fragment: numeric (or empty) ports and empty or
IP-literal hosts, the latter checked as the resolver does — `parseIPv4`
first, then `parseIPv6` with the zone allowed, so zoned IPv6 literals
such as `fe80::1%eth0` are accepted without any environment
involvement; only service-name ports and DNS host-name resolution,
which depend on the environment, are modelled as resolution failures,
matching the spec's reading that the right-hand side carries an
explicit port and an IPv4/IPv6 host form. -/

/-- Decidable equality of `Except` results, for evaluating the parser
model on concrete inputs. -/
instance exceptDecEq {ε α : Type} [DecidableEq ε] [DecidableEq α] :
    DecidableEq (Except ε α) := fun x y =>
  match x, y with
  | .ok a, .ok b =>
    if h : a = b then isTrue (by rw [h])
    else isFalse (fun hc => h (by injection hc))
  | .error a, .error b =>
    if h : a = b then isTrue (by rw [h])
    else isFalse (fun hc => h (by injection hc))
  | .ok _, .error _ => isFalse (fun hc => Except.noConfusion hc)
  | .error _, .ok _ => isFalse (fun hc => Except.noConfusion hc)

/-- The error values of the address layer that `upid.Parse` can
propagate. -/
inductive AddrErr where
  | missingPort
  | tooManyColons
  | missingRBracket
  | unexpectedLBracket
  | unexpectedRBracket
  | badPort
  | hostNotFound
  deriving DecidableEq, Repr

/-- Go `net.SplitHostPort`, translated from `net/ipsock.go`: the host
is what precedes the last `':'` (brackets stripped for IPv6 literals),
the port what follows it. -/
def splitHostPort (hp : Chars) : Except AddrErr (Chars × Chars) :=
  match lastIndexOfCh ':' hp with
  | none => .error .missingPort
  | some i =>
    match hp with
    | '[' :: _ =>
      match indexOfCh ']' hp with
      | none => .error .missingRBracket
      | some e =>
        if e + 1 = hp.length then .error .missingPort
        else if e + 1 = i then
          if ((hp.drop 1).contains '[') then .error .unexpectedLBracket
          else if ((hp.drop (e + 1)).contains ']') then .error .unexpectedRBracket
          else .ok ((hp.drop 1).take (e - 1), hp.drop (i + 1))
        else if hp.getD (e + 1) ' ' = ':' then .error .tooManyColons
        else .error .missingPort
    | _ =>
      if (hp.take i).contains ':' then .error .tooManyColons
      else if hp.contains '[' then .error .unexpectedLBracket
      else if hp.contains ']' then .error .unexpectedRBracket
      else .ok (hp.take i, hp.drop (i + 1))

/-- Go `net.parsePort` for numeric or empty port strings: empty means
port 0; a sign followed by digits is accepted; a service name (any non
digit) needs an environment lookup and is modelled as `none`. -/
def parsePortNum (service : Chars) : Option Int :=
  match service with
  | [] => some 0
  | c :: rest =>
    let (neg, digits) : Bool × Chars :=
      if c = '+' then (false, rest)
      else if c = '-' then (true, rest)
      else (false, c :: rest)
    match digits with
    | [] => some 0
    | _ :: _ =>
      match parseDigits digits with
      | none => none
      | some n =>
        let n := min n 4294967295
        some (if neg then -(n : Int) else (n : Int))

/-- Deterministic fragment of Go `net.ResolveTCPAddr("tcp", hp)`:
split host and port, require a numeric in-range port, and require the
host to be empty or an IP literal, checked exactly as the resolver's
`internetAddrList` does — `parseIPv4` first, then `parseIPv6` with the
zone allowed; anything else would go to DNS (environment-dependent,
modelled as failure). -/
def resolveTCPAddr (hp : Chars) : Except AddrErr Unit :=
  match splitHostPort hp with
  | .error e => .error e
  | .ok (host, port) =>
    match parsePortNum port with
    | none => .error .badPort
    | some p =>
      if p < 0 ∨ 65535 < p then .error .badPort
      else if host = [] then .ok ()
      else
        match parseIPv4 host with
        | some _ => .ok ()
        | none =>
          match parseIPv6Zone host with
          | some _ => .ok ()
          | none => .error .hostNotFound

/-- `UPID` of `records/state/upid/upid.go`: id, host and port. -/
structure UPID where
  ID : Chars
  Host : Chars
  Port : Chars
  deriving DecidableEq, Repr

/-- The two error shapes of `upid.Parse`: the fixed format error for a
wrong number of `@`, and a propagated address-resolution error. -/
inductive UPIDErr where
  | format
  | addr (e : AddrErr)
  deriving DecidableEq, Repr

/-- `upid.Parse` translated from `records/state/upid/upid.go`: split on
`@` into exactly two parts, validate the right part with
`ResolveTCPAddr`, then extract host and port with `SplitHostPort`. -/
def upidParse (input : Chars) : Except UPIDErr UPID :=
  match splitCh '@' input with
  | [idPart, rhs] =>
    match resolveTCPAddr rhs with
    | .error e => .error (.addr e)
    | .ok _ =>
      match splitHostPort rhs with
      | .error e => .error (.addr e)
      | .ok (h, p) => .ok ⟨idPart, h, p⟩
  | _ => .error .format

/-!
## Model of `records/state/state.go`

The passive data structures of the `/state` snapshot, with Go `string`
fields as Lean `String` and the `float64` status timestamp as `ℚ`. -/

/-- `Resources` struct: the raw textual port-range descriptor. -/
structure Resources where
  PortRanges : String
  deriving DecidableEq, Repr

/-- `Label` struct. -/
structure Label where
  Key : String
  Value : String
  deriving DecidableEq, Repr

/-- `PortMapping` struct. -/
structure PortMapping where
  Protocol : String
  HostPort : Int
  ContainerPort : Int
  deriving DecidableEq, Repr

/-- `IPAddress` struct. -/
structure IPAddress where
  IPAddress : String
  deriving DecidableEq, Repr

/-- `NetworkInfo` struct: the v0.26 address list, the port mappings and
the legacy v0.25 single address field. -/
structure NetworkInfo where
  IPAddresses : List IPAddress
  PortMappings : List PortMapping
  IPAddress : String
  deriving DecidableEq, Repr

/-- `ContainerStatus` struct. -/
structure ContainerStatus where
  NetworkInfos : List NetworkInfo
  deriving DecidableEq, Repr

/-- `Status` struct: timestamp, lifecycle state, labels and container
status. -/
structure Status where
  Timestamp : ℚ
  State : String
  Labels : List Label
  ContainerStatus : ContainerStatus
  deriving DecidableEq, Repr

/-- `DiscoveryPort` struct. -/
structure DiscoveryPort where
  Protocol : String
  Number : Int
  Name : String
  deriving DecidableEq, Repr

/-- `DiscoveryInfo` struct. -/
structure DiscoveryInfo where
  Visibilty : String
  Version : String
  Name : String
  Location : String
  Environment : String
  Labels : List Label
  DiscoveryPorts : List DiscoveryPort
  deriving DecidableEq, Repr

/-- `Task` struct: identity fields, statuses, embedded resources,
discovery info, and the caller-supplied `SlaveIPs`. -/
structure Task where
  FrameworkID : String
  ID : String
  Name : String
  SlaveID : String
  State : String
  Statuses : List Status
  Resources : Resources
  DiscoveryInfo : DiscoveryInfo
  SlaveIPs : List String
  deriving DecidableEq, Repr

/-- The scan of `statusIPs` that tracks the freshest `TASK_RUNNING`
status: Go keeps the best timestamp `ts` (initially `-1.0`) and index
`j` (initially `-1`); here `best` carries `st[j]` directly and `ts` is
the same running maximum. -/
def selectRunningAux : List Status → ℚ → Option Status → Option Status
  | [], _, best => best
  | s :: rest, ts, best =>
    if s.State = "TASK_RUNNING" ∧ ts < s.Timestamp then
      selectRunningAux rest s.Timestamp (some s)
    else
      selectRunningAux rest ts best

/-- The selection of `statusIPs`: the freshest `TASK_RUNNING` status,
starting from the sentinel timestamp `-1.0`. -/
def selectRunning (st : List Status) : Option Status :=
  selectRunningAux st (-1) none

/-- `statusIPs` translated from `state.go`: extract with `src` from the
selected status, or return no results when no status is selected. -/
def statusIPs (st : List Status) (src : Status → List String) : List String :=
  match selectRunning st with
  | some s => src s
  | none => []

/-- `DockerIPLabel` constant. -/
def DockerIPLabel : String := "Docker.NetworkSettings.IPAddress"

/-- `MesosIPLabel` constant. -/
def MesosIPLabel : String := "MesosContainerizer.NetworkSettings.IPAddress"

/-- `labels` of `state.go`: the values of a status's labels whose key
equals `key` (note the correct `make([]string, 0, len(s.Labels))`). -/
def labels (key : String) : Status → List String := fun s =>
  s.Labels.foldl (fun vs l => if l.Key = key then vs ++ [l.Value] else vs) []

/-- `hostIPs` of `state.go`. -/
def hostIPs (t : Task) : List String := t.SlaveIPs

/-- The per-status extractor of `networkInfoIPs`, translated verbatim:
it starts from `make([]string, len(s.ContainerStatus.NetworkInfos))` —
a slice already holding `len(...)` empty strings — and then appends
the addresses of each `NetworkInfo`, preferring the `IPAddresses` list
and falling back to the non-empty legacy `IPAddress` field. -/
def netinfoSrc (s : Status) : List String :=
  s.ContainerStatus.NetworkInfos.foldl
    (fun ips netinfo =>
      if 0 < netinfo.IPAddresses.length then
        ips ++ netinfo.IPAddresses.map IPAddress.IPAddress
      else
        if netinfo.IPAddress ≠ "" then ips ++ [netinfo.IPAddress] else ips)
    (List.replicate s.ContainerStatus.NetworkInfos.length "")

/-- `networkInfoIPs` of `state.go`. -/
def networkInfoIPs (t : Task) : List String := statusIPs t.Statuses netinfoSrc

/-- `dockerIPs` of `state.go`. -/
def dockerIPs (t : Task) : List String := statusIPs t.Statuses (labels DockerIPLabel)

/-- `mesosIPs` of `state.go`. -/
def mesosIPs (t : Task) : List String := statusIPs t.Statuses (labels MesosIPLabel)

/-- The `sources` lookup table of `state.go`, as the lookup function of
the map literal. -/
def sources (name : String) : Option (Task → List String) :=
  if name = "host" then some hostIPs
  else if name = "mesos" then some mesosIPs
  else if name = "docker" then some dockerIPs
  else if name = "netinfo" then some networkInfoIPs
  else none

/-- `Task.IPs` translated from `state.go`; the receiver is `*Task`, so
it takes an `Option Task` and returns no results for the nil pointer.
Each recognized source's strings are parsed with `net.ParseIP` and only
successful parses (`len(ip) > 0`) are appended. -/
def Task.IPs (t? : Option Task) (srcs : List String) : List (List Nat) :=
  match t? with
  | none => []
  | some t =>
    srcs.foldl
      (fun ips name =>
        match sources name with
        | some src =>
          (src t).foldl
            (fun ips srcIP =>
              match parseIP srcIP.data with
              | some ip => ips ++ [ip]
              | none => ips)
            ips
        | none => ips)
      []

/-- `Task.IP` translated from `state.go`: the string form of the first
resolved address, or the empty string. -/
def Task.IP (t? : Option Task) (srcs : List String) : String :=
  let ips := Task.IPs t? srcs
  if 0 < ips.length then (ipString (ips.headD [])).asString else ""

/-- Inner double loop of `MapPort` over the network infos of a status:
first port mapping whose `HostPort` equals the input wins, otherwise
the input passes through. -/
def mapPortScan (ni : List NetworkInfo) (hostport : Int) : Int :=
  match ni with
  | [] => hostport
  | n :: rest =>
    match n.PortMappings.find? (fun m => m.HostPort == hostport) with
    | some m => m.ContainerPort
    | none => mapPortScan rest hostport

/-- `MapPort` translated from `state.go`: it reads
`t.Statuses[0].ContainerStatus.NetworkInfos` unconditionally, so the
`none` result models the index-out-of-range panic on a task with an
empty status sequence. -/
def MapPort (t : Task) (hostport : Int) : Option Int :=
  match t.Statuses with
  | [] => none
  | s0 :: _ => some (mapPortScan s0.ContainerStatus.NetworkInfos hostport)

/-!
## Specification-side definitions

These definitions follow the words of the specification (not the code);
the claim theorems compare the code model against them. -/

/-- Spec §4.2: a status eligible for selection relative to a strict
lower timestamp bound `ts`: lifecycle state `TASK_RUNNING` and
timestamp strictly above `ts`. -/
def runningCand (ts : ℚ) (s : Status) : Bool :=
  (s.State == "TASK_RUNNING") && decide (ts < s.Timestamp)

/-- Maximum of a list of rationals. -/
def maxQ : List ℚ → Option ℚ
  | [] => none
  | q :: qs =>
    some (match maxQ qs with
          | none => q
          | some m => max q m)

/-- Timestamps of the eligible statuses, in sequence order. -/
def candTimes (ts : ℚ) (st : List Status) : List ℚ :=
  (st.filter (runningCand ts)).map Status.Timestamp

/-- Spec §4.2 selection relative to a strict lower bound `ts`: the
first status in sequence order that is eligible and carries the
maximal eligible timestamp; `none` when no status is eligible. -/
def specSelectFrom (ts : ℚ) (st : List Status) : Option Status :=
  match maxQ (candTimes ts st) with
  | none => none
  | some m => st.find? (fun s => runningCand ts s && decide (s.Timestamp = m))

/-!
## Lemmas about the split / trim / integer-text utilities -/

theorem splitCh_ne_nil (sep : Char) (l : Chars) : splitCh sep l ≠ [] := by
  induction l with
  | nil => simp [splitCh]
  | cons c rest ih =>
    simp only [splitCh]
    split
    · simp
    · cases h : splitCh sep rest with
      | nil => simp
      | cons f fs => simp

theorem splitCh_cons_of_eq (sep : Char) (l : Chars) :
    splitCh sep (sep :: l) = [] :: splitCh sep l := by
  simp [splitCh]

theorem splitCh_cons_of_ne (sep c : Char) (l : Chars) (h : c ≠ sep) :
    splitCh sep (c :: l) =
      (c :: (splitCh sep l).headD []) :: (splitCh sep l).tail := by
  simp only [splitCh, if_neg h]
  cases hs : splitCh sep l with
  | nil => exact absurd hs (splitCh_ne_nil sep l)
  | cons f fs => simp

theorem length_splitCh (sep : Char) (l : Chars) :
    (splitCh sep l).length = l.count sep + 1 := by
  induction l with
  | nil => simp [splitCh]
  | cons c rest ih =>
    by_cases hc : c = sep
    · subst hc
      rw [splitCh_cons_of_eq]
      simp [ih, List.count_cons]
    · rw [splitCh_cons_of_ne sep c rest hc]
      cases hs : splitCh sep rest with
      | nil => exact absurd hs (splitCh_ne_nil sep rest)
      | cons f fs =>
        have := ih
        rw [hs] at this
        simp only [List.length_cons, List.headD, List.tail] at *
        rw [List.count_cons]
        simp [hc, this]

theorem runningCand_iff (ts : ℚ) (s : Status) :
    runningCand ts s = true ↔ (s.State = "TASK_RUNNING" ∧ ts < s.Timestamp) := by
  simp [runningCand]

theorem maxQ_eq_none (l : List ℚ) : maxQ l = none ↔ l = [] := by
  cases l with
  | nil => simp [maxQ]
  | cons q qs => simp [maxQ]

theorem maxQ_mem : ∀ (l : List ℚ) (m : ℚ), maxQ l = some m → m ∈ l := by
  intro l
  induction l with
  | nil => intro m h; simp [maxQ] at h
  | cons q qs ih =>
    intro m h
    rw [maxQ] at h
    injection h with h
    cases hq : maxQ qs with
    | none =>
      rw [hq] at h
      simp only at h
      exact h ▸ List.mem_cons_self q qs
    | some m' =>
      rw [hq] at h
      simp only at h
      rcases max_choice q m' with hm | hm
      · rw [hm] at h
        exact h ▸ List.mem_cons_self q qs
      · rw [hm] at h
        exact List.mem_cons_of_mem q (h ▸ ih m' hq)

theorem maxQ_le : ∀ (l : List ℚ) (m x : ℚ), maxQ l = some m → x ∈ l → x ≤ m := by
  intro l
  induction l with
  | nil => intro m x h hx; simp at hx
  | cons q qs ih =>
    intro m x h hx
    rw [maxQ] at h
    injection h with h
    cases hq : maxQ qs with
    | none =>
      rw [hq] at h
      simp only at h
      have hqs : qs = [] := (maxQ_eq_none qs).1 hq
      subst hqs
      rcases List.mem_cons.1 hx with hx | hx
      · exact le_of_eq (hx.trans h)
      · simp at hx
    | some m' =>
      rw [hq] at h
      simp only at h
      rcases List.mem_cons.1 hx with hx | hx
      · subst hx; rw [← h]; exact le_max_left x m'
      · calc x ≤ m' := ih m' x hq hx
          _ ≤ max q m' := le_max_right q m'
          _ = m := h

theorem find?_congr {α : Type} (p q : α → Bool) : ∀ (l : List α),
    (∀ x ∈ l, p x = q x) → l.find? p = l.find? q := by
  intro l
  induction l with
  | nil => intro h; rfl
  | cons a rest ih =>
    intro h
    have ha := h a (List.mem_cons_self a rest)
    cases hp : p a with
    | true =>
      rw [List.find?_cons_of_pos _ hp, List.find?_cons_of_pos _ (ha ▸ hp)]
    | false =>
      rw [List.find?_cons_of_neg _ (by simp [hp]), List.find?_cons_of_neg _ (by simp [← ha, hp]),
        ih (fun x hx => h x (List.mem_cons_of_mem a hx))]

theorem candTimes_cons_pos (ts : ℚ) (s : Status) (rest : List Status)
    (h : runningCand ts s = true) :
    candTimes ts (s :: rest) = s.Timestamp :: candTimes ts rest := by
  rw [candTimes, List.filter_cons_of_pos h, List.map_cons, candTimes]

theorem candTimes_cons_neg (ts : ℚ) (s : Status) (rest : List Status)
    (h : ¬runningCand ts s = true) :
    candTimes ts (s :: rest) = candTimes ts rest := by
  rw [candTimes, List.filter_cons_of_neg (by simpa using h), candTimes]

theorem map_timestamp_filter (p : ℚ → Bool) : ∀ l : List Status,
    (l.filter (fun s => p s.Timestamp)).map Status.Timestamp
      = (l.map Status.Timestamp).filter p := by
  intro l
  induction l with
  | nil => rfl
  | cons s rest ih =>
    cases hp : p s.Timestamp with
    | true => simp [List.filter_cons, List.map_cons, hp, ih]
    | false => simp [List.filter_cons, List.map_cons, hp, ih]

theorem candTimes_shift (ts ts' : ℚ) (hts : ts < ts') (l : List Status) :
    candTimes ts' l = (candTimes ts l).filter (fun q => decide (ts' < q)) := by
  rw [candTimes, candTimes]
  have h1 : l.filter (runningCand ts')
      = l.filter (fun s => runningCand ts s && decide (ts' < s.Timestamp)) := by
    apply List.filter_congr
    intro s hs
    cases hlt : decide (ts' < s.Timestamp) with
    | true =>
      have h2 : decide (ts < s.Timestamp) = true := by
        simp only [decide_eq_true_eq] at hlt ⊢
        exact lt_trans hts hlt
      simp [runningCand, hlt, h2]
    | false => simp [runningCand, hlt]
  rw [h1]
  have h2 : l.filter (fun s => runningCand ts s && decide (ts' < s.Timestamp))
      = (l.filter (runningCand ts)).filter (fun s => decide (ts' < s.Timestamp)) := by
    rw [List.filter_filter]
    apply List.filter_congr
    intro s hs
    rw [Bool.and_comm]
  rw [h2, map_timestamp_filter (fun q => decide (ts' < q)) (l.filter (runningCand ts))]

theorem maxQ_filter_empty (l : List ℚ) (m a : ℚ) (hm : maxQ l = some m)
    (hle : m ≤ a) : l.filter (fun q => decide (a < q)) = [] := by
  rw [List.filter_eq_nil_iff]
  intro x hx
  have hxm := maxQ_le l m x hm hx
  simp only [decide_eq_true_eq]
  exact not_lt.2 (hxm.trans hle)

theorem maxQ_filter_gt : ∀ (l : List ℚ) (m a : ℚ), maxQ l = some m → a < m →
    maxQ (l.filter (fun q => decide (a < q))) = some m := by
  intro l
  induction l with
  | nil => intro m a h; simp [maxQ] at h
  | cons q qs ih =>
    intro m a h ha
    rw [maxQ] at h
    injection h with h
    cases hq : maxQ qs with
    | none =>
      rw [hq] at h
      simp only at h
      have hqs : qs = [] := (maxQ_eq_none qs).1 hq
      subst hqs
      subst h
      rw [List.filter_cons_of_pos (by simpa using ha)]
      rfl
    | some m' =>
      rw [hq] at h
      simp only at h
      rcases le_total m' q with hmq | hmq
      · have hmax : max q m' = q := max_eq_left hmq
        rw [hmax] at h
        subst h
        rw [List.filter_cons_of_pos (by simpa using ha), maxQ]
        rcases le_or_lt m' a with hma | hma
        · rw [maxQ_filter_empty qs m' a hq hma]
          simp [maxQ]
        · rw [ih m' a hq hma]
          simp only
          rw [max_eq_left hmq]
      · have hmax : max q m' = m' := max_eq_right hmq
        rw [hmax] at h
        subst h
        by_cases hqa : a < q
        · rw [List.filter_cons_of_pos (by simpa using hqa), maxQ, ih m' a hq ha]
          simp only
          rw [max_eq_right hmq]
        · rw [List.filter_cons_of_neg (by simpa using hqa)]
          exact ih m' a hq ha

/-- The running maximum scan of `statusIPs` computes the spec's
selection: the first status carrying the maximal eligible timestamp,
falling back to `best` when nothing is eligible. -/
theorem selectRunningAux_eq (st : List Status) : ∀ (ts : ℚ) (best : Option Status),
    selectRunningAux st ts best =
      match specSelectFrom ts st with
      | some x => some x
      | none => best := by
  induction st with
  | nil =>
    intro ts best
    simp [selectRunningAux, specSelectFrom, candTimes, maxQ]
  | cons s rest ih =>
    intro ts best
    by_cases hc : runningCand ts s = true
    · have hPr := (runningCand_iff ts s).1 hc
      rw [selectRunningAux, if_pos hPr, ih s.Timestamp (some s)]
      cases hm : maxQ (candTimes ts rest) with
      | none =>
        have hcand : candTimes ts rest = [] := (maxQ_eq_none _).1 hm
        have hsub : specSelectFrom s.Timestamp rest = none := by
          rw [specSelectFrom, candTimes_shift ts s.Timestamp hPr.2 rest, hcand]
          rfl
        have hspec : specSelectFrom ts (s :: rest) = some s := by
          rw [specSelectFrom, candTimes_cons_pos ts s rest hc, maxQ, hm]
          simp only
          rw [List.find?_cons_of_pos _ (by simp [hc])]
        rw [hsub, hspec]
      | some m' =>
        rcases le_or_lt m' s.Timestamp with hle | hlt
        · have hmax : max s.Timestamp m' = s.Timestamp := max_eq_left hle
          have hsub : specSelectFrom s.Timestamp rest = none := by
            rw [specSelectFrom, candTimes_shift ts s.Timestamp hPr.2 rest,
              maxQ_filter_empty _ m' s.Timestamp hm hle]
            rfl
          have hspec : specSelectFrom ts (s :: rest) = some s := by
            rw [specSelectFrom, candTimes_cons_pos ts s rest hc, maxQ, hm]
            simp only [hmax]
            rw [List.find?_cons_of_pos _ (by simp [hc])]
          rw [hsub, hspec]
        · have hmax : max s.Timestamp m' = m' := max_eq_right (le_of_lt hlt)
          have hfind : rest.find? (fun x => runningCand s.Timestamp x && decide (x.Timestamp = m'))
              = rest.find? (fun x => runningCand ts x && decide (x.Timestamp = m')) := by
            apply find?_congr
            intro x hx
            cases hxm : decide (x.Timestamp = m') with
            | false => simp [hxm]
            | true =>
              have hxm' : x.Timestamp = m' := of_decide_eq_true hxm
              have h1 : decide (s.Timestamp < x.Timestamp) = true := by
                simp [hxm', hlt]
              have h2 : decide (ts < x.Timestamp) = true := by
                simp only [decide_eq_true_eq, hxm']
                exact lt_trans hPr.2 hlt
              simp [runningCand, h1, h2]
          have hsubmax : maxQ (candTimes s.Timestamp rest) = some m' := by
            rw [candTimes_shift ts s.Timestamp hPr.2 rest]
            exact maxQ_filter_gt _ m' s.Timestamp hm hlt
          have hexists : ∃ y, rest.find?
              (fun x => runningCand s.Timestamp x && decide (x.Timestamp = m')) = some y := by
            have hmem : m' ∈ candTimes s.Timestamp rest := maxQ_mem _ m' hsubmax
            rw [candTimes] at hmem
            obtain ⟨x, hxf, hxT⟩ := List.mem_map.1 hmem
            have hxmem : x ∈ rest := List.mem_of_mem_filter hxf
            have hxcand : runningCand s.Timestamp x = true := List.of_mem_filter hxf
            have hsome : (rest.find?
                (fun x => runningCand s.Timestamp x && decide (x.Timestamp = m'))).isSome := by
              rw [List.find?_isSome]
              exact ⟨x, hxmem, by simp [hxcand, hxT]⟩
            exact Option.isSome_iff_exists.1 hsome
          obtain ⟨y, hy⟩ := hexists
          have hsub : specSelectFrom s.Timestamp rest = some y := by
            rw [specSelectFrom, hsubmax]
            simpa using hy
          have hspec : specSelectFrom ts (s :: rest) = some y := by
            rw [specSelectFrom, candTimes_cons_pos ts s rest hc, maxQ, hm]
            simp only [hmax]
            rw [List.find?_cons_of_neg _ (by simp [hc]; exact ne_of_lt hlt), ← hfind, hy]
          rw [hsub, hspec]
    · have hPr : ¬(s.State = "TASK_RUNNING" ∧ ts < s.Timestamp) :=
        fun hp => hc ((runningCand_iff ts s).2 hp)
      rw [selectRunningAux, if_neg hPr, ih ts best]
      have hspec : specSelectFrom ts (s :: rest) = specSelectFrom ts rest := by
        rw [specSelectFrom, specSelectFrom, candTimes_cons_neg ts s rest hc]
        cases hm : maxQ (candTimes ts rest) with
        | none => rfl
        | some m =>
          simp only
          rw [List.find?_cons_of_neg _ (by simp [hc])]
      rw [hspec]

/-- `statusIPs`'s selection equals the spec's selection with the
sentinel strict lower bound `-1.0`. -/
theorem selectRunning_eq_spec (st : List Status) :
    selectRunning st = specSelectFrom (-1) st := by
  rw [selectRunning, selectRunningAux_eq st (-1) none]
  cases specSelectFrom (-1) st with
  | none => rfl
  | some x => rfl

theorem specSelectFrom_none (ts : ℚ) (st : List Status)
    (h : ∀ s ∈ st, s.State ≠ "TASK_RUNNING") : specSelectFrom ts st = none := by
  have hf : st.filter (runningCand ts) = [] := by
    rw [List.filter_eq_nil_iff]
    intro s hs
    simp only [runningCand, Bool.and_eq_true, beq_iff_eq, decide_eq_true_eq, not_and]
    intro hstate
    exact absurd hstate (h s hs)
  rw [specSelectFrom, candTimes, hf]
  rfl

theorem find?_eq_of_unique {α : Type} (p : α → Bool) (s : α) : ∀ l : List α,
    s ∈ l → p s = true → (∀ x ∈ l, p x = true → x = s) →
    l.find? p = some s := by
  intro l
  induction l with
  | nil => intro hmem; simp at hmem
  | cons a rest ih =>
    intro hmem hs huniq
    by_cases ha : p a = true
    · have haeq : a = s := huniq a (List.mem_cons_self a rest) ha
      subst haeq
      rw [List.find?_cons_of_pos _ ha]
    · rw [List.find?_cons_of_neg _ (by simp [ha])]
      rcases List.mem_cons.1 hmem with h | h
      · subst h; exact absurd hs ha
      · exact ih h hs (fun x hx hp => huniq x (List.mem_cons_of_mem a hx) hp)

/-- **C1** — Status selection (amended: the code's scan starts from the
sentinel timestamp `-1.0`, so only `TASK_RUNNING` statuses with
timestamp strictly above `-1.0` are eligible): the selected status is
the first one in sequence order among the eligible statuses carrying
the maximal eligible timestamp (so a strictly-greatest timestamp wins,
and ties go to the first in sequence order); when no status has state
`TASK_RUNNING`, selection yields none and the status-dependent
strategies `mesos`, `docker` and `netinfo` all return an empty result
rather than an error. -/
theorem status_selection (st : List Status) (t : Task) :
    selectRunning st = specSelectFrom (-1) st
    ∧ ((∀ s ∈ st, s.State ≠ "TASK_RUNNING") → selectRunning st = none)
    ∧ ((∀ s ∈ t.Statuses, s.State ≠ "TASK_RUNNING") →
        mesosIPs t = [] ∧ dockerIPs t = [] ∧ networkInfoIPs t = []) := by
  refine ⟨selectRunning_eq_spec st, ?_, ?_⟩
  · intro h
    rw [selectRunning_eq_spec st, specSelectFrom_none (-1) st h]
  · intro h
    have hsel : selectRunning t.Statuses = none := by
      rw [selectRunning_eq_spec, specSelectFrom_none (-1) _ h]
    exact ⟨by simp [mesosIPs, statusIPs, hsel], by simp [dockerIPs, statusIPs, hsel],
      by simp [networkInfoIPs, statusIPs, hsel]⟩

/-- Counterexample to C1 as stated: a lone `TASK_RUNNING` status whose
timestamp `-2.0` is (vacuously) strictly greater than all other running
statuses' timestamps, yet selection yields none, because the scan's
running maximum starts at the sentinel `-1.0`. -/
theorem status_selection_counterexample :
    (Status.mk (-2) "TASK_RUNNING" [] ⟨[]⟩).State = "TASK_RUNNING"
    ∧ selectRunning [Status.mk (-2) "TASK_RUNNING" [] ⟨[]⟩] = none :=
  ⟨rfl, by decide⟩

/-- Witness for C1 at a concrete one-status sequence with no running
status. -/
theorem status_selection_witness :
    (selectRunning [Status.mk 5 "TASK_FINISHED" [] ⟨[]⟩]
        = specSelectFrom (-1) [Status.mk 5 "TASK_FINISHED" [] ⟨[]⟩])
    ∧ selectRunning [Status.mk 5 "TASK_FINISHED" [] ⟨[]⟩] = none
    ∧ (mesosIPs (Task.mk "f" "i" "n" "sl" "TASK_FINISHED"
          [Status.mk 5 "TASK_FINISHED" [] ⟨[]⟩] ⟨""⟩
          (DiscoveryInfo.mk "" "" "" "" "" [] []) []) = []
        ∧ dockerIPs (Task.mk "f" "i" "n" "sl" "TASK_FINISHED"
          [Status.mk 5 "TASK_FINISHED" [] ⟨[]⟩] ⟨""⟩
          (DiscoveryInfo.mk "" "" "" "" "" [] []) []) = []
        ∧ networkInfoIPs (Task.mk "f" "i" "n" "sl" "TASK_FINISHED"
          [Status.mk 5 "TASK_FINISHED" [] ⟨[]⟩] ⟨""⟩
          (DiscoveryInfo.mk "" "" "" "" "" [] []) []) = []) :=
  ⟨(status_selection [Status.mk 5 "TASK_FINISHED" [] ⟨[]⟩]
      (Task.mk "f" "i" "n" "sl" "TASK_FINISHED"
        [Status.mk 5 "TASK_FINISHED" [] ⟨[]⟩] ⟨""⟩
        (DiscoveryInfo.mk "" "" "" "" "" [] []) [])).1,
   (status_selection [Status.mk 5 "TASK_FINISHED" [] ⟨[]⟩]
      (Task.mk "f" "i" "n" "sl" "TASK_FINISHED"
        [Status.mk 5 "TASK_FINISHED" [] ⟨[]⟩] ⟨""⟩
        (DiscoveryInfo.mk "" "" "" "" "" [] []) [])).2.1 (by decide),
   (status_selection [Status.mk 5 "TASK_FINISHED" [] ⟨[]⟩]
      (Task.mk "f" "i" "n" "sl" "TASK_FINISHED"
        [Status.mk 5 "TASK_FINISHED" [] ⟨[]⟩] ⟨""⟩
        (DiscoveryInfo.mk "" "" "" "" "" [] []) [])).2.2 (by decide)⟩

/-- **C8** — Status selection order-independence (amended: the unique
`TASK_RUNNING` entry must carry a timestamp strictly above the code's
sentinel `-1.0`): a sequence with exactly one `TASK_RUNNING` entry
selects that entry under every permutation; and two `TASK_RUNNING`
statuses with timestamps 1.0 and 2.0 select the 2.0 one in either
order. -/
theorem selection_order_independence :
    (∀ (st st' : List Status) (s : Status), List.Perm st st' →
        st.filter (fun x => x.State == "TASK_RUNNING") = [s] →
        (-1 : ℚ) < s.Timestamp →
        selectRunning st' = some s)
    ∧ (∀ s1 s2 : Status, s1.State = "TASK_RUNNING" → s2.State = "TASK_RUNNING" →
        s1.Timestamp = 1 → s2.Timestamp = 2 →
        selectRunning [s1, s2] = some s2 ∧ selectRunning [s2, s1] = some s2) := by
  constructor
  · intro st st' s hperm hfilter hts
    rw [selectRunning_eq_spec]
    have hperm2 : List.Perm [s] (st'.filter (fun x => x.State == "TASK_RUNNING")) := by
      rw [← hfilter]
      exact hperm.filter _
    have hf2 : st'.filter (fun x => x.State == "TASK_RUNNING") = [s] :=
      (List.singleton_perm.1 hperm2).symm
    have hcand : st'.filter (runningCand (-1)) = [s] := by
      have hff : st'.filter (runningCand (-1))
          = (st'.filter (fun x => x.State == "TASK_RUNNING")).filter
              (fun x => decide ((-1 : ℚ) < x.Timestamp)) := by
        rw [List.filter_filter]
        apply List.filter_congr
        intro x hx
        rw [runningCand, Bool.and_comm]
      rw [hff, hf2, List.filter_cons_of_pos (by simpa using hts)]
      rfl
    have hmems : s ∈ st' := by
      have : s ∈ st'.filter (runningCand (-1)) := by rw [hcand]; exact List.mem_cons_self s []
      exact List.mem_of_mem_filter this
    have hcands : runningCand (-1) s = true := by
      have : s ∈ st'.filter (runningCand (-1)) := by rw [hcand]; exact List.mem_cons_self s []
      exact List.of_mem_filter this
    rw [specSelectFrom, candTimes, hcand]
    simp only [List.map_cons, List.map_nil]
    rw [maxQ]
    simp only [maxQ]
    apply find?_eq_of_unique
    · exact hmems
    · simp [hcands]
    · intro x hx hpx
      have hxcand : runningCand (-1) x = true := by
        simp only [Bool.and_eq_true] at hpx
        exact hpx.1
      have : x ∈ st'.filter (runningCand (-1)) := List.mem_filter.2 ⟨hx, hxcand⟩
      rw [hcand] at this
      exact List.mem_singleton.1 this
  · intro s1 s2 h1 h2 ht1 ht2
    constructor
    · rw [selectRunning, selectRunningAux,
        if_pos ⟨h1, by rw [ht1]; norm_num⟩, selectRunningAux,
        if_pos ⟨h2, by rw [ht1, ht2]; norm_num⟩, selectRunningAux]
    · rw [selectRunning, selectRunningAux,
        if_pos ⟨h2, by rw [ht2]; norm_num⟩, selectRunningAux,
        if_neg (fun hcontra => by rw [ht1, ht2] at hcontra; norm_num at hcontra),
        selectRunningAux]

/-- Counterexample to C8 as stated: a sequence whose unique
`TASK_RUNNING` entry has timestamp exactly `-1.0`; even the identity
permutation selects none rather than that entry. -/
theorem selection_order_independence_counterexample :
    ([Status.mk (-1) "TASK_RUNNING" [] ⟨[]⟩].filter
        (fun x => x.State == "TASK_RUNNING") = [Status.mk (-1) "TASK_RUNNING" [] ⟨[]⟩])
    ∧ selectRunning [Status.mk (-1) "TASK_RUNNING" [] ⟨[]⟩] = none :=
  ⟨by decide, by decide⟩

/-- Witness for C8: a lone running status at timestamp 5 is selected
under the identity permutation, and the timestamps 1.0/2.0 pair
resolves to the 2.0 entry in both orders. -/
theorem selection_order_independence_witness :
    selectRunning [Status.mk 5 "TASK_RUNNING" [] ⟨[]⟩]
        = some (Status.mk 5 "TASK_RUNNING" [] ⟨[]⟩)
    ∧ (selectRunning [Status.mk 1 "TASK_RUNNING" [] ⟨[]⟩, Status.mk 2 "TASK_RUNNING" [] ⟨[]⟩]
          = some (Status.mk 2 "TASK_RUNNING" [] ⟨[]⟩)
        ∧ selectRunning [Status.mk 2 "TASK_RUNNING" [] ⟨[]⟩, Status.mk 1 "TASK_RUNNING" [] ⟨[]⟩]
          = some (Status.mk 2 "TASK_RUNNING" [] ⟨[]⟩)) :=
  ⟨selection_order_independence.1 [Status.mk 5 "TASK_RUNNING" [] ⟨[]⟩]
      [Status.mk 5 "TASK_RUNNING" [] ⟨[]⟩] (Status.mk 5 "TASK_RUNNING" [] ⟨[]⟩)
      (List.Perm.refl _) (by decide) (by decide),
   selection_order_independence.2 (Status.mk 1 "TASK_RUNNING" [] ⟨[]⟩)
      (Status.mk 2 "TASK_RUNNING" [] ⟨[]⟩) rfl rfl rfl rfl⟩

/-- **C2** (code bug in `MapPort`): on a task whose status sequence is
empty `MapPort` indexes `t.Statuses[0]` unconditionally and panics
(modelled as `none`) instead of returning the input host port; with a
first status present it returns the first matching mapping's container
port and passes the host port through when nothing matches. -/
theorem mapPort_eval :
    MapPort (Task.mk "f" "i" "n" "sl" "TASK_RUNNING" [] ⟨""⟩
        (DiscoveryInfo.mk "" "" "" "" "" [] []) []) 9090 = none
    ∧ MapPort (Task.mk "f" "i" "n" "sl" "TASK_RUNNING"
        [Status.mk 1 "TASK_RUNNING" [] ⟨[NetworkInfo.mk [] [PortMapping.mk "tcp" 8080 80] ""]⟩]
        ⟨""⟩ (DiscoveryInfo.mk "" "" "" "" "" [] []) []) 8080 = some 80
    ∧ MapPort (Task.mk "f" "i" "n" "sl" "TASK_RUNNING"
        [Status.mk 1 "TASK_RUNNING" [] ⟨[NetworkInfo.mk [] [PortMapping.mk "tcp" 8080 80] ""]⟩]
        ⟨""⟩ (DiscoveryInfo.mk "" "" "" "" "" [] []) []) 9090 = some 9090 :=
  ⟨rfl, by decide, by decide⟩

/-- **C3** (code bug in `networkInfoIPs`): the extractor starts from
`make([]string, len(NetworkInfos))` — a slice already holding one empty
string per NetworkInfo — and appends to it, so the result carries two
leading empty strings here instead of being exactly the concatenation
`["1.2.3.4", "5.6.7.8"]` the claim (and the spec) state. -/
theorem networkInfoIPs_eval :
    networkInfoIPs (Task.mk "f" "i" "n" "sl" "TASK_RUNNING"
        [Status.mk 1 "TASK_RUNNING" []
          ⟨[NetworkInfo.mk [IPAddress.mk "1.2.3.4"] [] "ignored",
            NetworkInfo.mk [] [] "5.6.7.8"]⟩]
        ⟨""⟩ (DiscoveryInfo.mk "" "" "" "" "" [] []) [])
      = ["", "", "1.2.3.4", "5.6.7.8"] := by decide

/-!
## Lemmas about the IP resolution engine -/

theorem ips_inner_loop : ∀ (l : List String) (acc : List (List Nat)),
    l.foldl (fun ips srcIP =>
        match parseIP srcIP.data with
        | some ip => ips ++ [ip]
        | none => ips) acc
      = acc ++ l.filterMap (fun srcIP => parseIP srcIP.data) := by
  intro l
  induction l with
  | nil => intro acc; simp
  | cons a rest ih =>
    intro acc
    rw [List.foldl_cons, List.filterMap_cons]
    cases hp : parseIP a.data with
    | none => simp only [hp]; exact ih acc
    | some ip =>
      simp only [hp]
      rw [ih (acc ++ [ip])]
      simp

theorem ips_outer_loop (t : Task) : ∀ (srcs : List String) (acc : List (List Nat)),
    srcs.foldl (fun ips name =>
        match sources name with
        | some src =>
          (src t).foldl (fun ips srcIP =>
            match parseIP srcIP.data with
            | some ip => ips ++ [ip]
            | none => ips) ips
        | none => ips) acc
      = acc ++ (srcs.map (fun name =>
          ((sources name).elim [] (fun f => f t)).filterMap
            (fun srcIP => parseIP srcIP.data))).flatten := by
  intro srcs
  induction srcs with
  | nil => intro acc; simp
  | cons name rest ih =>
    intro acc
    rw [List.foldl_cons, List.map_cons, List.flatten_cons]
    cases hs : sources name with
    | none =>
      simp only [hs, Option.elim_none]
      rw [ih acc]
      simp
    | some src =>
      simp only [hs, Option.elim_some]
      rw [ips_inner_loop (src t) acc, ih]
      simp [List.append_assoc]

/-- **C4** — IP resolution engine: for a (non-nil) task and an ordered
source-name list, `IPs` is the concatenation, in the order the names
are given, of each recognized source's successfully-parsed addresses
(unparsable strings are dropped by the `filterMap` over `net.ParseIP`,
with no error), and every name other than `host`, `mesos`, `docker`,
`netinfo` is absent from the source table, hence silently contributes
nothing. -/
theorem ips_resolution (t : Task) (srcs : List String) :
    Task.IPs (some t) srcs
      = (srcs.map (fun name =>
          ((sources name).elim [] (fun f => f t)).filterMap
            (fun srcIP => parseIP srcIP.data))).flatten
    ∧ ∀ name : String,
        ¬(name = "host" ∨ name = "mesos" ∨ name = "docker" ∨ name = "netinfo") →
        sources name = none := by
  constructor
  · rw [Task.IPs]
    rw [ips_outer_loop t srcs []]
    simp
  · intro name h
    rw [sources, if_neg (fun hh => h (Or.inl hh)),
      if_neg (fun hh => h (Or.inr (Or.inl hh))),
      if_neg (fun hh => h (Or.inr (Or.inr (Or.inl hh)))),
      if_neg (fun hh => h (Or.inr (Or.inr (Or.inr hh))))]

/-- Witness for C4: a concrete task with one slave IP and one bogus
string, resolved through `host` and an unrecognized source name. -/
theorem ips_resolution_witness :
    Task.IPs (some (Task.mk "f" "i" "n" "sl" "TASK_RUNNING" [] ⟨""⟩
        (DiscoveryInfo.mk "" "" "" "" "" [] []) ["10.0.0.1", "bogus"]))
        ["host", "unknown"]
      = ((["host", "unknown"] : List String).map (fun name =>
          ((sources name).elim [] (fun f => f (Task.mk "f" "i" "n" "sl" "TASK_RUNNING" [] ⟨""⟩
            (DiscoveryInfo.mk "" "" "" "" "" [] []) ["10.0.0.1", "bogus"]))).filterMap
            (fun srcIP => parseIP srcIP.data))).flatten
    ∧ sources "unknown" = none :=
  ⟨(ips_resolution (Task.mk "f" "i" "n" "sl" "TASK_RUNNING" [] ⟨""⟩
      (DiscoveryInfo.mk "" "" "" "" "" [] []) ["10.0.0.1", "bogus"]) ["host", "unknown"]).1,
   (ips_resolution (Task.mk "f" "i" "n" "sl" "TASK_RUNNING" [] ⟨""⟩
      (DiscoveryInfo.mk "" "" "" "" "" [] []) ["10.0.0.1", "bogus"]) ["host", "unknown"]).2
      "unknown" (by decide)⟩

/-- **C9** — Best-address accessor: `IP` is the string form of the
first element of the `IPs` sequence for the same arguments, and the
empty string when that sequence is empty. -/
theorem ip_best_address (t? : Option Task) (srcs : List String) :
    Task.IP t? srcs
      = (match (Task.IPs t? srcs).head? with
         | some ip => (ipString ip).asString
         | none => "") := by
  cases h : Task.IPs t? srcs with
  | nil => simp [Task.IP, h]
  | cons ip rest => simp [Task.IP, h]

/-- **C10** — Nil-receiver totality: with a nil task pointer, `IPs`
returns the empty sequence and `IP` the empty string, for every source
list; neither operation fails. -/
theorem nil_task_total (srcs : List String) :
    Task.IPs none srcs = [] ∧ Task.IP none srcs = "" :=
  ⟨rfl, rfl⟩

/-!
## Lemmas about `upid.Parse` -/

theorem resolveTCPAddr_ok_split (rhs : Chars) (h : resolveTCPAddr rhs = .ok ()) :
    ∃ hp, splitHostPort rhs = .ok hp := by
  cases hsp : splitHostPort rhs with
  | error e => simp [resolveTCPAddr, hsp] at h
  | ok hp => exact ⟨hp, rfl⟩

/-- **C7** — Peer Identifier parsing: `Parse` fails with the fixed
format error whenever the input does not contain exactly one `@`;
with exactly one `@` it propagates any resolution error of the
right-hand side, and on successful resolution returns the id together
with the host and port split out of the right-hand side; it succeeds
exactly when there is one `@` and the right-hand side resolves; the
spec's concrete examples behave as stated; and a zoned IPv6 literal
host, which the resolver accepts deterministically, parses. -/
theorem upid_parsing (input : Chars) :
    (input.count '@' ≠ 1 → upidParse input = .error .format)
    ∧ (∀ idPart rhs, splitCh '@' input = [idPart, rhs] →
        (∀ e, resolveTCPAddr rhs = .error e → upidParse input = .error (.addr e))
        ∧ (∀ host port, resolveTCPAddr rhs = .ok () → splitHostPort rhs = .ok (host, port) →
            upidParse input = .ok (UPID.mk idPart host port)))
    ∧ ((∃ u, upidParse input = .ok u) ↔
        (input.count '@' = 1 ∧ ∃ idPart rhs, splitCh '@' input = [idPart, rhs]
          ∧ resolveTCPAddr rhs = .ok ()))
    ∧ upidParse ("sched@10.0.0.5:5050".data)
        = .ok (UPID.mk "sched".data "10.0.0.5".data "5050".data)
    ∧ upidParse ("sched10.0.0.5:5050".data) = .error .format
    ∧ upidParse ("a@b@c".data) = .error .format
    ∧ upidParse ("sched@10.0.0.5".data) = .error (.addr .missingPort)
    ∧ upidParse ("x@[fe80::1%eth0]:80".data)
        = .ok (UPID.mk "x".data "fe80::1%eth0".data "80".data) := by
  have hlen := length_splitCh '@' input
  refine ⟨?_, ?_, ?_, by decide, by decide, by decide, by decide, by decide⟩
  · intro hcount
    cases hsp : splitCh '@' input with
    | nil => simp [upidParse, hsp]
    | cons a l2 =>
      cases l2 with
      | nil => simp [upidParse, hsp]
      | cons b l3 =>
        cases l3 with
        | nil =>
          rw [hsp] at hlen
          simp at hlen
          exact absurd (by omega) hcount
        | cons c l4 => simp [upidParse, hsp]
  · intro idPart rhs hsp
    constructor
    · intro e he
      simp [upidParse, hsp, he]
    · intro host port hok hsplit
      simp [upidParse, hsp, hok, hsplit]
  · constructor
    · rintro ⟨u, hu⟩
      cases hsp : splitCh '@' input with
      | nil => simp [upidParse, hsp] at hu
      | cons a l2 =>
        cases l2 with
        | nil => simp [upidParse, hsp] at hu
        | cons b l3 =>
          cases l3 with
          | cons c l4 => simp [upidParse, hsp] at hu
          | nil =>
            rw [hsp] at hlen
            simp at hlen
            refine ⟨by omega, a, b, rfl, ?_⟩
            cases hok : resolveTCPAddr b with
            | error e => simp [upidParse, hsp, hok] at hu
            | ok uu => cases uu; rfl
    · rintro ⟨hcount, idPart, rhs, hsp, hok⟩
      obtain ⟨⟨host, port⟩, hsplit⟩ := resolveTCPAddr_ok_split rhs hok
      exact ⟨UPID.mk idPart host port, by simp [upidParse, hsp, hok, hsplit]⟩

/-- Witness for C7: a concrete success through the conditional parts of
the theorem, and a concrete two-`@` format failure. -/
theorem upid_parsing_witness :
    upidParse ("x@10.9.8.7:80".data) = .ok (UPID.mk "x".data "10.9.8.7".data "80".data)
    ∧ upidParse ("x@y@z".data) = .error .format :=
  ⟨((upid_parsing ("x@10.9.8.7:80".data)).2.1 "x".data "10.9.8.7:80".data (by decide)).2
      "10.9.8.7".data "80".data (by decide) (by decide),
   (upid_parsing ("x@y@z".data)).1 (by decide)⟩

end MesosDNS
